import Mathlib

/-! Verification of the rc-ufo-winos keyboard-to-UDP teleoperation bridge.

The development shallowly embeds the repository's Python modules:
- `ufo_protocol` : the pure frame codec (u8 validation, clamping, axis
  mapping, 9-byte control-frame builder, 2-byte keepalive constant);
- `send_ufo_keyboard` : the legacy single-file script whose codec helpers
  duplicate the shared module;
- `ufo_controller` / `ufo_config` : the control loop (key-state table,
  takeoff burst, steady-state scheduler).

Python integers become `Int` (with values known to be bytes carried as
`Nat` inside frames); a function that can raise `ValueError` returns
`Option`; `time.monotonic()` readings and durations become `Rat`, passed
to the loop as explicit clock traces; `msvcrt` key polling becomes a list
of already-normalized tokens consumed by the drain step.  Rational
arithmetic is written with kernel-computable wrappers `radd`, `rsub`,
`rdiv` (proved equal to `+`, `-`, `/` below) so that concrete loop runs
evaluate by `decide`. -/

/-- Kernel-computable rational addition, equal to `+` (see `radd_eq`). -/
def radd (a b : Rat) : Rat :=
  Rat.divInt (a.num * b.den + b.num * a.den) (a.den * b.den)

/-- Kernel-computable rational subtraction, equal to `-` (see `rsub_eq`). -/
def rsub (a b : Rat) : Rat :=
  Rat.divInt (a.num * b.den - b.num * a.den) (a.den * b.den)

/-- Kernel-computable rational division, equal to `/` (see `rdiv_eq`). -/
def rdiv (a b : Rat) : Rat :=
  Rat.divInt (a.num * b.den) (a.den * b.num)

namespace ufo_protocol

/-- Wire frames are byte lists. -/
abbrev Frame := List Nat

/-- Keepalive packet observed in controller traffic: `bytes([0x01, 0x01])`. -/
def KEEPALIVE_0101 : Frame := [0x01, 0x01]

/-- Embedding of `u8`: raises (returns `none`) unless `0 <= x <= 255`. -/
def u8 (x : Int) : Option Int :=
  if 0 ≤ x ∧ x ≤ 255 then some x else none

/-- Embedding of `clamp_u8`: `0 if x < 0 else (255 if x > 255 else x)`. -/
def clamp_u8 (x : Int) : Int :=
  if x < 0 then 0 else if x > 255 then 255 else x

/-- Embedding of `axis_to_extreme`: validates `center` via `u8`, then maps
pos only to `0xFF`, neg only to `0x00`, both/none to `center`. -/
def axis_to_extreme (pos_on neg_on : Bool) (center : Int) : Option Int := do
  let c ← u8 center
  if pos_on && !neg_on then pure 0xFF
  else if neg_on && !pos_on then pure 0x00
  else pure c

/-- Embedding of `build_analog_with_flags`: validates the five fields via
`u8`, computes `chk = (c1 ^ c2 ^ thr ^ c4 ^ flags) & 0xFF`, and lays out
`03 66 c1 c2 thr c4 flags chk 99`. -/
def build_analog_with_flags (c1 c2 thr c4 flags : Int) : Option Frame := do
  let c1 ← u8 c1
  let c2 ← u8 c2
  let thr ← u8 thr
  let c4 ← u8 c4
  let flags ← u8 flags
  let chk : Nat :=
    ((((c1.toNat ^^^ c2.toNat) ^^^ thr.toNat) ^^^ c4.toNat) ^^^ flags.toNat) &&& 0xFF
  pure [0x03, 0x66, c1.toNat, c2.toNat, thr.toNat, c4.toNat, flags.toNat, chk, 0x99]

end ufo_protocol

namespace send_ufo_keyboard

/-- Embedding of the legacy script's `_u8` (identical body to the shared
module's `u8`). -/
def u8 (x : Int) : Option Int :=
  if 0 ≤ x ∧ x ≤ 255 then some x else none

/-- Embedding of the legacy script's `_clamp_u8`. -/
def clamp_u8 (x : Int) : Int :=
  if x < 0 then 0 else if x > 255 then 255 else x

/-- Embedding of the legacy script's `_axis_to_extreme`: unlike the shared
module it does NOT validate `center`; it returns it unchanged. -/
def axis_to_extreme (pos_on neg_on : Bool) (center : Int) : Int :=
  if pos_on && !neg_on then 0xFF
  else if neg_on && !pos_on then 0x00
  else center

/-- Embedding of the legacy script's `build_analog_with_flags` (same body
as the shared module's, using the local `_u8`). -/
def build_analog_with_flags (c1 c2 thr c4 flags : Int) : Option ufo_protocol.Frame := do
  let c1 ← u8 c1
  let c2 ← u8 c2
  let thr ← u8 thr
  let c4 ← u8 c4
  let flags ← u8 flags
  let chk : Nat :=
    ((((c1.toNat ^^^ c2.toNat) ^^^ thr.toNat) ^^^ c4.toNat) ^^^ flags.toNat) &&& 0xFF
  pure [0x03, 0x66, c1.toNat, c2.toNat, thr.toNat, c4.toNat, flags.toNat, chk, 0x99]

end send_ufo_keyboard

namespace ufo_config

/-- The loop-relevant fields of the validated `Args` record produced by
`parse_args` (network addresses and the unused delta/quiet fields are not
modeled; the loop never reads them). -/
structure Args where
  rate_hz : Rat
  send_keepalive : Bool
  keepalive_hz : Rat
  hold_ms : Int
  c1_center : Int
  c2_center : Int
  c4_center : Int
  thr_base : Int

end ufo_config

namespace ufo_controller

open ufo_protocol ufo_config

/-- The eight tracked directional inputs of the `t_last` table. -/
inductive KeyName where
  | w
  | a
  | s
  | d
  | up
  | down
  | left
  | right
deriving DecidableEq

/-- The far-past sentinel `-1e9` used to initialize and reset `t_last`. -/
def sentinel : Rat := -(10 ^ 9)

/-- The initial `t_last` table: every input last active at the sentinel. -/
def initial_t_last : KeyName → Rat := fun _ => sentinel

/-- Embedding of `hold_s = args.hold_ms / 1000.0`. -/
def hold_s (args : Args) : Rat := rdiv (args.hold_ms : Rat) 1000

/-- Embedding of the closure `is_on(name, now)`:
`(now - t_last[name]) <= hold_s`. -/
def is_on (t_last : KeyName → Rat) (h : Rat) (name : KeyName) (now : Rat) : Bool :=
  decide (rsub now (t_last name) ≤ h)

/-- Embedding of the key-event update `t_last[k] = now`. -/
def record (t_last : KeyName → Rat) (k : KeyName) (now : Rat) : KeyName → Rat :=
  fun k2 => if k2 = k then now else t_last k2

/-- Embedding of the reset action: `for key in t_last: t_last[key] = -1e9`. -/
def reset_all (_t_last : KeyName → Rat) : KeyName → Rat :=
  fun _ => sentinel

/-- The packet sent by each takeoff-burst iteration:
`build_analog_with_flags(c1_center, c2_center, thr_base, c4_center, 0x01)`. -/
def burst_packet (args : Args) : Option Frame :=
  build_analog_with_flags args.c1_center args.c2_center args.thr_base args.c4_center 0x01

/-- Embedding of the `while` loop of `send_takeoff_burst`.  Each element
of `clock` is one `time.monotonic()` reading taken at the top of the loop
body; the loop state is `next_takeoff`.  The real loop only terminates
through the `now >= t_takeoff_end` break; the clock trace is assumed long
enough to reach it (an exhausted trace ends the loop with no further
sends). -/
def burst_loop (args : Args) (t_end period : Rat) :
    List Rat → Rat → Option (List Frame)
  | [], _ => some []
  | now :: rest, next_takeoff =>
    if t_end ≤ now then some []
    else if next_takeoff ≤ now then do
      let pkt ← burst_packet args
      let more ← burst_loop args t_end period rest (radd next_takeoff period)
      pure (pkt :: more)
    else burst_loop args t_end period rest next_takeoff

/-- Embedding of `send_takeoff_burst`: `t_start` and `next0` are the two
`time.monotonic()` readings taken before the loop; the while loop runs on
the remaining `clock` readings. -/
def send_takeoff_burst (args : Args) (duration_s t_start next0 : Rat)
    (clock : List Rat) : Option (List Frame) :=
  burst_loop args (radd t_start duration_s) (rdiv 1 args.rate_hz) clock next0

/-- Normalized key tokens reaching the drain loop.  A takeoff token
carries the clock readings its inline burst will observe. -/
inductive Token where
  | quit
  | e (t_start next0 : Rat) (clock : List Rat)
  | r
  | key (k : KeyName)
deriving DecidableEq

/-- Result of draining the pending key tokens: either the quit path (the
loop returns), or the updated table; both carry frames sent by inline
takeoff bursts. -/
inductive DrainRes where
  | quit (sent : List Frame)
  | cont (t_last : KeyName → Rat) (sent : List Frame)

/-- Embedding of the steady-state loop's key-drain step (`while True:
k = read_key() ...`): quit returns, takeoff runs an inline burst, reset
clears the table, a directional token records `now`. -/
def drain_keys (args : Args) (now : Rat) :
    List Token → (KeyName → Rat) → Option DrainRes
  | [], t_last => some (DrainRes.cont t_last [])
  | Token.quit :: _, _ => some (DrainRes.quit [])
  | Token.e ts n0 clk :: rest, t_last => do
    let burst ← send_takeoff_burst args 1 ts n0 clk
    let r ← drain_keys args now rest t_last
    match r with
    | DrainRes.quit sent => pure (DrainRes.quit (burst ++ sent))
    | DrainRes.cont t2 sent => pure (DrainRes.cont t2 (burst ++ sent))
  | Token.r :: rest, t_last => drain_keys args now rest (reset_all t_last)
  | Token.key k :: rest, t_last => drain_keys args now rest (record t_last k now)

/-- Embedding of the analog-send body of one steady-state iteration:
recompute the eight held booleans at `now`, map the axes, apply the
throttle override, clamp, and build the frame with `flags = 0`. -/
def analog_packet (args : Args) (t_last : KeyName → Rat) (now : Rat) :
    Option Frame := do
  let h := hold_s args
  let w_on := is_on t_last h KeyName.w now
  let s_on := is_on t_last h KeyName.s now
  let a_on := is_on t_last h KeyName.a now
  let d_on := is_on t_last h KeyName.d now
  let up_on := is_on t_last h KeyName.up now
  let down_on := is_on t_last h KeyName.down now
  let left_on := is_on t_last h KeyName.left now
  let right_on := is_on t_last h KeyName.right now
  let c1 ← axis_to_extreme w_on s_on args.c1_center
  let c2 ← axis_to_extreme d_on a_on args.c2_center
  let c4 ← axis_to_extreme right_on left_on args.c4_center
  let thr ← if w_on then pure (0xFF : Int)
            else axis_to_extreme up_on down_on args.thr_base
  build_analog_with_flags (clamp_u8 c1) (clamp_u8 c2) (clamp_u8 thr) (clamp_u8 c4) 0x00

/-- State threaded through steady-state iterations. -/
structure LoopState where
  t_last : KeyName → Rat
  next_analog : Rat
  next_ka : Option Rat

/-- Result of one steady-state iteration: exit via quit, or continue. -/
inductive StepRes where
  | exit (sent : List Frame)
  | cont (s : LoopState) (sent : List Frame)

/-- Embedding of one iteration of the steady-state `while True` loop of
`run`: drain keys, then fire the analog timer, then the keepalive timer
(each advancing its deadline by its fixed period when it fires). -/
def loop_step (args : Args) (now : Rat) (toks : List Token) (s : LoopState) :
    Option StepRes := do
  let d ← drain_keys args now toks s.t_last
  match d with
  | DrainRes.quit sent => pure (StepRes.exit sent)
  | DrainRes.cont tl sent => do
    let ar ←
      if s.next_analog ≤ now then do
        let pkt ← analog_packet args tl now
        pure ([pkt], radd s.next_analog (rdiv 1 args.rate_hz))
      else
        pure (([] : List Frame), s.next_analog)
    let kr :=
      match s.next_ka with
      | none => (([] : List Frame), (none : Option Rat))
      | some nk =>
        if nk ≤ now then ([KEEPALIVE_0101], some (radd nk (rdiv 1 args.keepalive_hz)))
        else ([], some nk)
    pure (StepRes.cont ⟨tl, ar.2, kr.2⟩ (sent ++ (ar.1 ++ kr.1)))

/-- Embedding of the steady-state loop of `run` over a finite trace of
iterations; each trace entry supplies that iteration's `time.monotonic()`
reading and its pending key tokens.  Returns every frame sent, in order,
up to quit (or to the end of the trace). -/
def run_loop (args : Args) :
    List (Rat × List Token) → LoopState → Option (List Frame)
  | [], _ => some []
  | (now, toks) :: rest, s => do
    let r ← loop_step args now toks s
    match r with
    | StepRes.exit sent => pure sent
    | StepRes.cont s2 sent => do
      let more ← run_loop args rest s2
      pure (sent ++ more)

end ufo_controller

/-! The remainder of the file is the theorems: first the kernel-computable
rational wrappers are related to the field operations, then helper lemmas
about the codec and the loop, then the claim theorems. -/

theorem radd_eq (a b : Rat) : radd a b = a + b := by
  have ha : ((a.den : Int)) ≠ 0 := Int.ofNat_ne_zero.mpr a.den_nz
  have hb : ((b.den : Int)) ≠ 0 := Int.ofNat_ne_zero.mpr b.den_nz
  rw [radd, ← Rat.divInt_add_divInt _ _ ha hb, Rat.num_divInt_den, Rat.num_divInt_den]

theorem rsub_eq (a b : Rat) : rsub a b = a - b := by
  have ha : ((a.den : Int)) ≠ 0 := Int.ofNat_ne_zero.mpr a.den_nz
  have hb : ((b.den : Int)) ≠ 0 := Int.ofNat_ne_zero.mpr b.den_nz
  rw [rsub, ← Rat.divInt_sub_divInt _ _ ha hb, Rat.num_divInt_den, Rat.num_divInt_den]

theorem rdiv_eq (a b : Rat) : rdiv a b = a / b := by
  rw [rdiv, Rat.div_def']

theorem land255_eq_self {a : Nat} (h : a < 256) : a &&& 255 = a := by
  have h8 : a < 2 ^ 8 := by omega
  calc a &&& 255 = a &&& (2 ^ 8 - 1) := by norm_num
    _ = a := Nat.and_pow_two_sub_one_of_lt_two_pow h8

theorem xor_lt_256 {a b : Nat} (ha : a < 256) (hb : b < 256) : a ^^^ b < 256 := by
  have ha8 : a < 2 ^ 8 := by omega
  have hb8 : b < 2 ^ 8 := by omega
  have := Nat.xor_lt_two_pow ha8 hb8
  omega

theorem u8_of_range {x : Int} (h0 : 0 ≤ x) (h1 : x ≤ 255) :
    ufo_protocol.u8 x = some x := by
  simp [ufo_protocol.u8, h0, h1]

theorem toNat_lt_256 {x : Int} (h1 : x ≤ 255) : x.toNat < 256 := by omega

theorem build_analog_eq {c1 c2 thr c4 flags : Int}
    (h1 : 0 ≤ c1 ∧ c1 ≤ 255) (h2 : 0 ≤ c2 ∧ c2 ≤ 255) (h3 : 0 ≤ thr ∧ thr ≤ 255)
    (h4 : 0 ≤ c4 ∧ c4 ≤ 255) (h5 : 0 ≤ flags ∧ flags ≤ 255) :
    ufo_protocol.build_analog_with_flags c1 c2 thr c4 flags =
      some [0x03, 0x66, c1.toNat, c2.toNat, thr.toNat, c4.toNat, flags.toNat,
        ((((c1.toNat ^^^ c2.toNat) ^^^ thr.toNat) ^^^ c4.toNat) ^^^ flags.toNat) &&& 0xFF,
        0x99] := by
  simp [ufo_protocol.build_analog_with_flags, ufo_protocol.u8,
    h1.1, h1.2, h2.1, h2.2, h3.1, h3.2, h4.1, h4.2, h5.1, h5.2]

/-- C1: for all five inputs in `[0,255]` the control-frame encoder returns
exactly the 9-byte frame `03 66 c1 c2 thr c4 flags chk 99` with checksum
byte the plain XOR of the five payload bytes. -/
theorem C1_control_frame_layout (c1 c2 thr c4 flags : Int)
    (h1 : 0 ≤ c1 ∧ c1 ≤ 255) (h2 : 0 ≤ c2 ∧ c2 ≤ 255) (h3 : 0 ≤ thr ∧ thr ≤ 255)
    (h4 : 0 ≤ c4 ∧ c4 ≤ 255) (h5 : 0 ≤ flags ∧ flags ≤ 255) :
    ufo_protocol.build_analog_with_flags c1 c2 thr c4 flags =
      some [0x03, 0x66, c1.toNat, c2.toNat, thr.toNat, c4.toNat, flags.toNat,
        (((c1.toNat ^^^ c2.toNat) ^^^ thr.toNat) ^^^ c4.toNat) ^^^ flags.toNat,
        0x99] := by
  rw [build_analog_eq h1 h2 h3 h4 h5]
  have hx : (((c1.toNat ^^^ c2.toNat) ^^^ thr.toNat) ^^^ c4.toNat) ^^^ flags.toNat < 256 :=
    xor_lt_256 (xor_lt_256 (xor_lt_256 (xor_lt_256 (toNat_lt_256 h1.2)
      (toNat_lt_256 h2.2)) (toNat_lt_256 h3.2)) (toNat_lt_256 h4.2)) (toNat_lt_256 h5.2)
  rw [land255_eq_self hx]

theorem C1_witness :
    ((0 : Int) ≤ 17 ∧ (17 : Int) ≤ 255) ∧
    ufo_protocol.build_analog_with_flags 17 34 51 68 85 =
      some [0x03, 0x66, 17, 34, 51, 68, 85, (((17 ^^^ 34) ^^^ 51) ^^^ 68) ^^^ 85, 0x99] :=
  ⟨by decide,
   C1_control_frame_layout 17 34 51 68 85 (by decide) (by decide) (by decide)
     (by decide) (by decide)⟩

/-- C2: whenever any of the five inputs is outside `[0,255]` the encoder
raises (returns `none`) and produces no frame. -/
theorem C2_encoder_range_error (c1 c2 thr c4 flags : Int)
    (h : ¬ (0 ≤ c1 ∧ c1 ≤ 255) ∨ ¬ (0 ≤ c2 ∧ c2 ≤ 255) ∨ ¬ (0 ≤ thr ∧ thr ≤ 255) ∨
         ¬ (0 ≤ c4 ∧ c4 ≤ 255) ∨ ¬ (0 ≤ flags ∧ flags ≤ 255)) :
    ufo_protocol.build_analog_with_flags c1 c2 thr c4 flags = none := by
  have hn : ∀ x : Int, ¬ (0 ≤ x ∧ x ≤ 255) → ufo_protocol.u8 x = none := fun x hx => by
    simp [ufo_protocol.u8, hx]
  rcases h with h | h | h | h | h
  · simp [ufo_protocol.build_analog_with_flags, hn _ h]
  · cases h1 : ufo_protocol.u8 c1 <;>
      simp [ufo_protocol.build_analog_with_flags, h1, hn _ h]
  · cases h1 : ufo_protocol.u8 c1 <;> cases h2 : ufo_protocol.u8 c2 <;>
      simp [ufo_protocol.build_analog_with_flags, h1, h2, hn _ h]
  · cases h1 : ufo_protocol.u8 c1 <;> cases h2 : ufo_protocol.u8 c2 <;>
      cases h3 : ufo_protocol.u8 thr <;>
      simp [ufo_protocol.build_analog_with_flags, h1, h2, h3, hn _ h]
  · cases h1 : ufo_protocol.u8 c1 <;> cases h2 : ufo_protocol.u8 c2 <;>
      cases h3 : ufo_protocol.u8 thr <;> cases h4 : ufo_protocol.u8 c4 <;>
      simp [ufo_protocol.build_analog_with_flags, h1, h2, h3, h4, hn _ h]

theorem C2_witness :
    ¬ ((0 : Int) ≤ 256 ∧ (256 : Int) ≤ 255) ∧
    ufo_protocol.build_analog_with_flags 0 0 256 0 0 = none :=
  ⟨by decide, C2_encoder_range_error 0 0 256 0 0 (Or.inr (Or.inr (Or.inl (by decide))))⟩

/-- C3: for every center byte `c` in `[0,255]` the axis mapper sends
pos-only to `0xFF`, neg-only to `0x00`, and both/none to `c`. -/
theorem C3_axis_mapping (c : Int) (h : 0 ≤ c ∧ c ≤ 255) :
    ufo_protocol.axis_to_extreme true false c = some 0xFF ∧
    ufo_protocol.axis_to_extreme false true c = some 0x00 ∧
    ufo_protocol.axis_to_extreme true true c = some c ∧
    ufo_protocol.axis_to_extreme false false c = some c := by
  simp [ufo_protocol.axis_to_extreme, ufo_protocol.u8, h.1, h.2]

theorem C3_witness :
    ((0 : Int) ≤ 7 ∧ (7 : Int) ≤ 255) ∧
    (ufo_protocol.axis_to_extreme true false 7 = some 0xFF ∧
     ufo_protocol.axis_to_extreme false true 7 = some 0x00 ∧
     ufo_protocol.axis_to_extreme true true 7 = some 7 ∧
     ufo_protocol.axis_to_extreme false false 7 = some 7) :=
  ⟨by decide, C3_axis_mapping 7 (by decide)⟩

/-- C10: the legacy script's duplicated codec agrees with the shared
module: its frame builder returns the identical result (frame or range
failure) on all integer inputs, and its unvalidated axis mapper agrees
with the shared validating one on every in-range center and boolean
pair. -/
theorem C10_legacy_duplicates_agree :
    (∀ c1 c2 thr c4 flags : Int,
       send_ufo_keyboard.build_analog_with_flags c1 c2 thr c4 flags =
         ufo_protocol.build_analog_with_flags c1 c2 thr c4 flags) ∧
    (∀ (pos_on neg_on : Bool) (center : Int), 0 ≤ center → center ≤ 255 →
       ufo_protocol.axis_to_extreme pos_on neg_on center =
         some (send_ufo_keyboard.axis_to_extreme pos_on neg_on center)) := by
  constructor
  · intro c1 c2 thr c4 flags
    rfl
  · intro p n c h0 h1
    cases p <;> cases n <;>
      simp [ufo_protocol.axis_to_extreme, ufo_protocol.u8,
        send_ufo_keyboard.axis_to_extreme, h0, h1]

section ControllerClaims

open ufo_protocol ufo_config ufo_controller

theorem u8_of_not_range {x : Int} (hx : ¬ (0 ≤ x ∧ x ≤ 255)) :
    ufo_protocol.u8 x = none := by
  simp [ufo_protocol.u8, hx]

theorem axis_some (p n : Bool) {c : Int} (h0 : 0 ≤ c) (h1 : c ≤ 255) :
    ∃ v, axis_to_extreme p n c = some v ∧ 0 ≤ v ∧ v ≤ 255 := by
  have hu : ufo_protocol.u8 c = some c := u8_of_range h0 h1
  cases p <;> cases n
  · exact ⟨c, by simp [axis_to_extreme, hu], h0, h1⟩
  · exact ⟨0, by simp [axis_to_extreme, hu], by omega, by omega⟩
  · exact ⟨255, by simp [axis_to_extreme, hu], by omega, by omega⟩
  · exact ⟨c, by simp [axis_to_extreme, hu], h0, h1⟩

theorem clamp_u8_of_range {x : Int} (h0 : 0 ≤ x) (h1 : x ≤ 255) :
    clamp_u8 x = x := by
  unfold ufo_protocol.clamp_u8
  split_ifs <;> omega

theorem clamp_u8_255 : clamp_u8 255 = 255 := by decide

/-- C4: on every analog tick the four frame fields are computed as
`c1 = axis(w, s, c1_center)`, `c2 = axis(d, a, c2_center)`,
`c4 = axis(right, left, c4_center)`, and throttle forced to `0xFF` when
the stick-up input is held, else `axis(up, down, thr_base)` — i.e. the
tick packet is the encoder applied to exactly those field values. -/
theorem C4_tick_field_computation (args : Args)
    (t_last : KeyName → Rat) (now : Rat)
    (h1 : 0 ≤ args.c1_center ∧ args.c1_center ≤ 255)
    (h2 : 0 ≤ args.c2_center ∧ args.c2_center ≤ 255)
    (h4 : 0 ≤ args.c4_center ∧ args.c4_center ≤ 255)
    (ht : 0 ≤ args.thr_base ∧ args.thr_base ≤ 255) :
    analog_packet args t_last now =
      (axis_to_extreme (is_on t_last (hold_s args) KeyName.w now)
          (is_on t_last (hold_s args) KeyName.s now) args.c1_center).bind fun c1 =>
      (axis_to_extreme (is_on t_last (hold_s args) KeyName.d now)
          (is_on t_last (hold_s args) KeyName.a now) args.c2_center).bind fun c2 =>
      (axis_to_extreme (is_on t_last (hold_s args) KeyName.right now)
          (is_on t_last (hold_s args) KeyName.left now) args.c4_center).bind fun c4 =>
      (if is_on t_last (hold_s args) KeyName.w now then some (0xFF : Int)
       else axis_to_extreme (is_on t_last (hold_s args) KeyName.up now)
              (is_on t_last (hold_s args) KeyName.down now) args.thr_base).bind fun thr =>
      build_analog_with_flags c1 c2 thr c4 0x00 := by
  obtain ⟨v1, e1, l1, r1⟩ := axis_some (is_on t_last (hold_s args) KeyName.w now)
    (is_on t_last (hold_s args) KeyName.s now) h1.1 h1.2
  obtain ⟨v2, e2, l2, r2⟩ := axis_some (is_on t_last (hold_s args) KeyName.d now)
    (is_on t_last (hold_s args) KeyName.a now) h2.1 h2.2
  obtain ⟨v4, e4, l4, r4⟩ := axis_some (is_on t_last (hold_s args) KeyName.right now)
    (is_on t_last (hold_s args) KeyName.left now) h4.1 h4.2
  cases hb : is_on t_last (hold_s args) KeyName.w now
  · rw [hb] at e1
    obtain ⟨vt, et, lt1, rt1⟩ := axis_some (is_on t_last (hold_s args) KeyName.up now)
      (is_on t_last (hold_s args) KeyName.down now) ht.1 ht.2
    simp [analog_packet, hb, e1, e2, e4, et, clamp_u8_of_range lt1 rt1,
      clamp_u8_of_range l1 r1, clamp_u8_of_range l2 r2, clamp_u8_of_range l4 r4]
  · rw [hb] at e1
    simp [analog_packet, hb, e1, e2, e4, clamp_u8_255,
      clamp_u8_of_range l1 r1, clamp_u8_of_range l2 r2, clamp_u8_of_range l4 r4]

theorem C4_witness :
    ((0 : Int) ≤ 0x80 ∧ (0x80 : Int) ≤ 255) ∧
    analog_packet (⟨20, false, 1, 180, 0x80, 0x80, 0x80, 0⟩ : Args) initial_t_last 0 =
      (axis_to_extreme (is_on initial_t_last (hold_s ⟨20, false, 1, 180, 0x80, 0x80, 0x80, 0⟩) KeyName.w 0)
          (is_on initial_t_last (hold_s ⟨20, false, 1, 180, 0x80, 0x80, 0x80, 0⟩) KeyName.s 0) 0x80).bind fun c1 =>
      (axis_to_extreme (is_on initial_t_last (hold_s ⟨20, false, 1, 180, 0x80, 0x80, 0x80, 0⟩) KeyName.d 0)
          (is_on initial_t_last (hold_s ⟨20, false, 1, 180, 0x80, 0x80, 0x80, 0⟩) KeyName.a 0) 0x80).bind fun c2 =>
      (axis_to_extreme (is_on initial_t_last (hold_s ⟨20, false, 1, 180, 0x80, 0x80, 0x80, 0⟩) KeyName.right 0)
          (is_on initial_t_last (hold_s ⟨20, false, 1, 180, 0x80, 0x80, 0x80, 0⟩) KeyName.left 0) 0x80).bind fun c4 =>
      (if is_on initial_t_last (hold_s ⟨20, false, 1, 180, 0x80, 0x80, 0x80, 0⟩) KeyName.w 0 then some (0xFF : Int)
       else axis_to_extreme (is_on initial_t_last (hold_s ⟨20, false, 1, 180, 0x80, 0x80, 0x80, 0⟩) KeyName.up 0)
              (is_on initial_t_last (hold_s ⟨20, false, 1, 180, 0x80, 0x80, 0x80, 0⟩) KeyName.down 0) 0).bind fun thr =>
      build_analog_with_flags c1 c2 thr c4 0x00 :=
  ⟨by decide,
   C4_tick_field_computation ⟨20, false, 1, 180, 0x80, 0x80, 0x80, 0⟩ initial_t_last 0
     (by decide) (by decide) (by decide) (by decide)⟩

/-- C6: `is_held` is exactly the hold-window test
`(now - last_active) <= hold`; in particular after recording input "w" at
`t0` it is still held 1 ms before the window closes and no longer held
1 ms after. -/
theorem C6_is_held_window (t_last : KeyName → Rat) (h now : Rat) (k : KeyName) (t0 : Rat) :
    (is_on t_last h k now = true ↔ now - t_last k ≤ h) ∧
    is_on (record t_last KeyName.w t0) h KeyName.w (t0 + h - 1 / 1000) = true ∧
    is_on (record t_last KeyName.w t0) h KeyName.w (t0 + h + 1 / 1000) = false := by
  refine ⟨?_, ?_, ?_⟩
  · simp [is_on, rsub_eq]
  · simp [is_on, rsub_eq, record]
    linarith
  · simp [is_on, rsub_eq, record]
    linarith

/-- C7: after the reset action every input reads as released: with the
table reset to the far-past sentinel, `is_held` is false for all eight
names at any nonnegative clock reading and any hold window below the
sentinel magnitude. -/
theorem C7_reset_forces_released (t_last : KeyName → Rat) (k : KeyName) (now h : Rat)
    (hnow : 0 ≤ now) (hh : h < 10 ^ 9) :
    is_on (reset_all t_last) h k now = false := by
  simp [is_on, rsub_eq, reset_all, sentinel]
  linarith

theorem C7_witness :
    ((0 : Rat) ≤ 5 ∧ (mkRat 180 1000 : Rat) < 10 ^ 9) ∧
    is_on (reset_all (record initial_t_last KeyName.w 5)) (mkRat 180 1000) KeyName.w 5 = false :=
  ⟨by decide,
   C7_reset_forces_released (record initial_t_last KeyName.w 5) KeyName.w 5 (mkRat 180 1000)
     (by decide) (by decide)⟩

/-- Every frame a takeoff burst sends is this one fixed packet. -/
theorem burst_packet_eq {args : Args}
    (h1 : 0 ≤ args.c1_center ∧ args.c1_center ≤ 255)
    (h2 : 0 ≤ args.c2_center ∧ args.c2_center ≤ 255)
    (h4 : 0 ≤ args.c4_center ∧ args.c4_center ≤ 255)
    (ht : 0 ≤ args.thr_base ∧ args.thr_base ≤ 255) :
    burst_packet args =
      some [0x03, 0x66, args.c1_center.toNat, args.c2_center.toNat, args.thr_base.toNat,
        args.c4_center.toNat, 0x01,
        ((((args.c1_center.toNat ^^^ args.c2_center.toNat) ^^^ args.thr_base.toNat) ^^^
          args.c4_center.toNat) ^^^ 1) &&& 0xFF, 0x99] := by
  unfold ufo_controller.burst_packet
  rw [build_analog_eq h1 h2 ht h4 (by omega)]
  norm_num

/-- C9: every frame transmitted by a takeoff burst (duration 1.0 s) has
flags byte `0x01` and its four analog fields equal to the configured
centers and base throttle, whatever the clock trace (and hence whatever
keys are concurrently held — the burst never reads the key table). -/
theorem C9_burst_frames (args : Args) (t_start next0 : Rat) (clock : List Rat)
    (fs : List Frame)
    (h1 : 0 ≤ args.c1_center ∧ args.c1_center ≤ 255)
    (h2 : 0 ≤ args.c2_center ∧ args.c2_center ≤ 255)
    (h4 : 0 ≤ args.c4_center ∧ args.c4_center ≤ 255)
    (ht : 0 ≤ args.thr_base ∧ args.thr_base ≤ 255)
    (hrun : send_takeoff_burst args 1 t_start next0 clock = some fs) :
    ∀ f ∈ fs,
      f = [0x03, 0x66, args.c1_center.toNat, args.c2_center.toNat, args.thr_base.toNat,
        args.c4_center.toNat, 0x01,
        ((((args.c1_center.toNat ^^^ args.c2_center.toNat) ^^^ args.thr_base.toNat) ^^^
          args.c4_center.toNat) ^^^ 1) &&& 0xFF, 0x99] := by
  have hpkt := burst_packet_eq h1 h2 h4 ht
  rw [send_takeoff_burst] at hrun
  revert hrun
  generalize radd t_start 1 = t_end
  generalize rdiv 1 args.rate_hz = period
  intro hrun
  induction clock generalizing next0 fs with
  | nil =>
    simp only [burst_loop] at hrun
    injection hrun with h
    subst h
    intro f hf
    simp at hf
  | cons now rest ih =>
    simp only [burst_loop] at hrun
    split_ifs at hrun
    · injection hrun with h
      subst h
      intro f hf
      simp at hf
    · rw [hpkt] at hrun
      cases hm : burst_loop args t_end period rest (radd next0 period) with
      | none => rw [hm] at hrun; simp at hrun
      | some more =>
        rw [hm] at hrun
        simp at hrun
        subst hrun
        intro f hf
        rcases List.mem_cons.mp hf with hf | hf
        · exact hf
        · exact ih (radd next0 period) more hm f hf
    · exact ih next0 fs hrun

theorem C9_witness :
    send_takeoff_burst (⟨1, false, 1, 180, 2, 3, 5, 7⟩ : Args) 1 0 0 [0] =
      some [[0x03, 0x66, 2, 3, 7, 5, 0x01, 2, 0x99]] ∧
    ([0x03, 0x66, 2, 3, 7, 5, 0x01, 2, 0x99] : List Nat) =
      [0x03, 0x66, 2, 3, 7, 5, 0x01, 2, 0x99] :=
  ⟨by decide,
   C9_burst_frames ⟨1, false, 1, 180, 2, 3, 5, 7⟩ 0 0 [0]
     [[0x03, 0x66, 2, 3, 7, 5, 0x01, 2, 0x99]]
     (by decide) (by decide) (by decide) (by decide) (by decide)
     [0x03, 0x66, 2, 3, 7, 5, 0x01, 2, 0x99] (by decide)⟩

/-- If draining a prefix of tokens ends in the continue state, then
draining that prefix followed by a quit token (and anything after it)
returns the quit result carrying exactly the frames the prefix sent:
nothing after the quit token is processed. -/
theorem drain_keys_append_quit (args : Args) (now : Rat) (post : List Token) :
    ∀ (pre : List Token) (t tl : KeyName → Rat) (sent : List Frame),
      drain_keys args now pre t = some (DrainRes.cont tl sent) →
      drain_keys args now (pre ++ Token.quit :: post) t = some (DrainRes.quit sent) := by
  intro pre
  induction pre with
  | nil =>
    intro t tl sent h
    simp only [drain_keys] at h
    injection h with h
    cases h
    simp [drain_keys]
  | cons tok rest ih =>
    intro t tl sent h
    cases tok with
    | quit => simp [drain_keys] at h
    | e ts n0 clk =>
      simp only [drain_keys] at h ⊢
      cases hb : send_takeoff_burst args 1 ts n0 clk with
      | none => rw [hb] at h; simp at h
      | some bs =>
        rw [hb] at h
        cases hd : drain_keys args now rest t with
        | none => rw [hd] at h; simp at h
        | some r =>
          rw [hd] at h
          cases r with
          | quit s => simp at h
          | cont t2 s =>
            simp at h
            obtain ⟨-, h2⟩ := h
            subst h2
            simp [ih t t2 s hd]
    | r =>
      simp only [drain_keys] at h ⊢
      exact ih (reset_all t) tl sent h
    | key k =>
      simp only [drain_keys] at h ⊢
      exact ih (record t k now) tl sent h

/-- C8: if a quit token is observed at any position of the drained token
sequence, the loop returns success immediately: the run's entire output
is exactly the frames sent before the quit observation, and no later
iteration of the trace is executed. -/
theorem C8_quit_terminates (args : Args) (now : Rat) (pre post : List Token)
    (rest : List (Rat × List Token)) (s : LoopState) (tl : KeyName → Rat)
    (sent : List Frame)
    (hpre : drain_keys args now pre s.t_last = some (DrainRes.cont tl sent)) :
    run_loop args ((now, pre ++ Token.quit :: post) :: rest) s = some sent := by
  have hq := drain_keys_append_quit args now post pre s.t_last tl sent hpre
  simp [run_loop, loop_step, hq]

theorem C8_witness :
    run_loop (⟨20, false, 1, 180, 0x80, 0x80, 0x80, 0⟩ : Args)
      [(0, [Token.r] ++ Token.quit :: [Token.key KeyName.w]), (5, [])]
      ⟨initial_t_last, 0, none⟩ = some [] :=
  C8_quit_terminates ⟨20, false, 1, 180, 0x80, 0x80, 0x80, 0⟩ 0
    [Token.r] [Token.key KeyName.w] [(5, [])] ⟨initial_t_last, 0, none⟩
    (reset_all initial_t_last) [] rfl

/-- A table entry still at the sentinel reads as released for any
nonnegative clock reading and any hold window below the sentinel
magnitude. -/
theorem is_on_sentinel {t_last : KeyName → Rat} {k : KeyName} {h now : Rat}
    (hs : t_last k = sentinel) (hnow : 0 ≤ now) (hh : h < 10 ^ 9) :
    is_on t_last h k now = false := by
  simp [is_on, rsub_eq, hs, sentinel]
  linarith

/-- With default centers and base throttle, a tick on which no input is
held builds exactly the neutral frame `03 66 80 80 00 80 00 80 99`. -/
theorem analog_packet_default {args : Args} {t_last : KeyName → Rat} {now : Rat}
    (hc1 : args.c1_center = 0x80) (hc2 : args.c2_center = 0x80)
    (hc4 : args.c4_center = 0x80) (hthr : args.thr_base = 0)
    (hoff : ∀ k, is_on t_last (hold_s args) k now = false) :
    analog_packet args t_last now =
      some [0x03, 0x66, 0x80, 0x80, 0x00, 0x80, 0x00, 0x80, 0x99] := by
  simp only [analog_packet, hoff, hc1, hc2, hc4, hthr]
  decide

/-- One steady-state iteration with no pending tokens keeps the key table
unchanged and sends only the neutral analog frame and 2-byte keepalives. -/
theorem loop_step_default {args : Args} {now : Rat} {s : LoopState}
    (hc1 : args.c1_center = 0x80) (hc2 : args.c2_center = 0x80)
    (hc4 : args.c4_center = 0x80) (hthr : args.thr_base = 0)
    (hhold : hold_s args < 10 ^ 9) (hnow : 0 ≤ now)
    (hstate : ∀ k, s.t_last k = sentinel) :
    ∃ s2 sent, loop_step args now [] s = some (StepRes.cont s2 sent) ∧
      s2.t_last = s.t_last ∧
      ∀ f ∈ sent, f.length = 9 →
        f = [0x03, 0x66, 0x80, 0x80, 0x00, 0x80, 0x00, 0x80, 0x99] := by
  have hoff : ∀ k, is_on s.t_last (hold_s args) k now = false := fun k =>
    is_on_sentinel (hstate k) hnow hhold
  have hap := analog_packet_default hc1 hc2 hc4 hthr hoff
  cases hka : s.next_ka with
  | none =>
    by_cases ha : s.next_analog ≤ now
    · refine ⟨⟨s.t_last, radd s.next_analog (rdiv 1 args.rate_hz), none⟩,
        [[0x03, 0x66, 0x80, 0x80, 0x00, 0x80, 0x00, 0x80, 0x99]],
        by simp [loop_step, drain_keys, ha, hka, hap], rfl, ?_⟩
      intro f hf hlen
      simp at hf
      subst hf
      rfl
    · refine ⟨⟨s.t_last, s.next_analog, none⟩, [],
        by simp [loop_step, drain_keys, ha, hka], rfl, ?_⟩
      intro f hf hlen
      simp at hf
  | some nk =>
    by_cases ha : s.next_analog ≤ now <;> by_cases hnk : nk ≤ now
    · refine ⟨⟨s.t_last, radd s.next_analog (rdiv 1 args.rate_hz),
          some (radd nk (rdiv 1 args.keepalive_hz))⟩,
        [[0x03, 0x66, 0x80, 0x80, 0x00, 0x80, 0x00, 0x80, 0x99], KEEPALIVE_0101],
        by simp [loop_step, drain_keys, ha, hka, hnk, hap], rfl, ?_⟩
      intro f hf hlen
      rcases List.mem_cons.mp hf with rfl | hf
      · rfl
      · simp at hf
        subst hf
        simp [KEEPALIVE_0101] at hlen
    · refine ⟨⟨s.t_last, radd s.next_analog (rdiv 1 args.rate_hz), some nk⟩,
        [[0x03, 0x66, 0x80, 0x80, 0x00, 0x80, 0x00, 0x80, 0x99]],
        by simp [loop_step, drain_keys, ha, hka, hnk, hap], rfl, ?_⟩
      intro f hf hlen
      simp at hf
      subst hf
      rfl
    · refine ⟨⟨s.t_last, s.next_analog, some (radd nk (rdiv 1 args.keepalive_hz))⟩,
        [KEEPALIVE_0101],
        by simp [loop_step, drain_keys, ha, hka, hnk], rfl, ?_⟩
      intro f hf hlen
      simp at hf
      subst hf
      simp [KEEPALIVE_0101] at hlen
    · refine ⟨⟨s.t_last, s.next_analog, some nk⟩, [],
        by simp [loop_step, drain_keys, ha, hka, hnk], rfl, ?_⟩
      intro f hf hlen
      simp at hf

/-- C5: with the default configuration (all centers `0x80`, base throttle
`0x00`) and no key tokens arriving (so no input is within its hold
window), every 9-byte frame the steady-state loop transmits is exactly
`03 66 80 80 00 80 00 80 99` — in particular the checksum byte is `0x80`.
(The only other frames a run can emit are the 2-byte keepalives.) -/
theorem C5_default_steady_frames (args : Args) (trace : List (Rat × List Token))
    (s : LoopState) (fs : List Frame)
    (hc1 : args.c1_center = 0x80) (hc2 : args.c2_center = 0x80)
    (hc4 : args.c4_center = 0x80) (hthr : args.thr_base = 0)
    (hhold : hold_s args < 10 ^ 9)
    (htrace : ∀ p ∈ trace, p.2 = ([] : List Token) ∧ 0 ≤ p.1)
    (hstate : ∀ k, s.t_last k = sentinel)
    (hrun : run_loop args trace s = some fs) :
    ∀ f ∈ fs, f.length = 9 →
      f = [0x03, 0x66, 0x80, 0x80, 0x00, 0x80, 0x00, 0x80, 0x99] := by
  induction trace generalizing s fs with
  | nil =>
    simp only [run_loop] at hrun
    injection hrun with h
    subst h
    intro f hf
    simp at hf
  | cons p rest ih =>
    obtain ⟨now, toks⟩ := p
    obtain ⟨htoks, hnow⟩ := htrace _ (List.mem_cons_self _ _)
    simp only at htoks hnow
    subst htoks
    obtain ⟨s2, sent, hstep, hs2, hsent⟩ :=
      loop_step_default hc1 hc2 hc4 hthr hhold hnow hstate
    simp only [run_loop] at hrun
    rw [hstep] at hrun
    simp at hrun
    cases hm : run_loop args rest s2 with
    | none =>
      rw [hm] at hrun
      simp at hrun
    | some more =>
      rw [hm] at hrun
      simp at hrun
      subst hrun
      intro f hf hlen
      rcases List.mem_append.mp hf with hf | hf
      · exact hsent f hf hlen
      · exact ih s2 more (fun p hp => htrace p (List.mem_cons_of_mem _ hp))
          (fun k => by rw [hs2]; exact hstate k) hm f hf hlen

theorem C5_witness :
    run_loop (⟨20, false, 1, 180, 0x80, 0x80, 0x80, 0⟩ : Args) [(0, [])]
        ⟨initial_t_last, 0, none⟩ =
      some [[0x03, 0x66, 0x80, 0x80, 0x00, 0x80, 0x00, 0x80, 0x99]] ∧
    ([0x03, 0x66, 0x80, 0x80, 0x00, 0x80, 0x00, 0x80, 0x99] : List Nat) =
      [0x03, 0x66, 0x80, 0x80, 0x00, 0x80, 0x00, 0x80, 0x99] :=
  ⟨by decide,
   C5_default_steady_frames ⟨20, false, 1, 180, 0x80, 0x80, 0x80, 0⟩ [(0, [])]
     ⟨initial_t_last, 0, none⟩ [[0x03, 0x66, 0x80, 0x80, 0x00, 0x80, 0x00, 0x80, 0x99]]
     rfl rfl rfl rfl (by decide) (by decide) (fun k => rfl) (by decide)
     [0x03, 0x66, 0x80, 0x80, 0x00, 0x80, 0x00, 0x80, 0x99] (by decide) (by decide)⟩

end ControllerClaims

theorem C10_witness :
    send_ufo_keyboard.build_analog_with_flags 1 2 3 4 999 =
      ufo_protocol.build_analog_with_flags 1 2 3 4 999 ∧
    ufo_protocol.axis_to_extreme true false 9 =
      some (send_ufo_keyboard.axis_to_extreme true false 9) :=
  ⟨C10_legacy_duplicates_agree.1 1 2 3 4 999,
   C10_legacy_duplicates_agree.2 true false 9 (by decide) (by decide)⟩
